import Mathlib

/-!
Verification of the MindfulAI backend against its specification.

This file gives a shallow embedding of the parts of the code that the
claims C1..C10 are about:

* `app/services/audio_processor.py` : `load_glm_model`, `convert_audio_format`,
  `transcribe_audio`, `clean_text`;
* `app/api/endpoints/audio.py` : `save_upload_file`, `transcribe_audio_file`,
  `create_journal_from_audio`, `create_journal_from_text`,
  `transcribe_existing_journal_audio`;
* `app/schemas/journal.py` : `JournalEntryCreate` (pydantic construction).

Strings are modelled by Lean `String` / `List Char`.  The file system is a
list of the paths of the files that currently exist.  The database is a
list of journal-entry records.  Timestamps are `Nat` ticks.  The external
ASR model is an uninterpreted parameter: the text it would produce is passed
in as an argument, and each fallible library call (model load, audio decode,
inference, file write) gets a `Bool` parameter saying whether it succeeds.
-/

/-! ### Character-level model of the Python string primitives -/

/-- The whitespace characters recognised by Python's `str.split()` /
`str.strip()` in the ASCII range: TAB, LF, VT, FF, CR, SPACE. -/
def pyWS (c : Char) : Bool := [9, 10, 11, 12, 13, 32].contains c.toNat

theorem toNat_ofNat_valid {n : Nat} (h : n < 55296) : (Char.ofNat n).toNat = n := by
  simp [Char.ofNat, Nat.isValidChar, h, Char.ofNatAux, Char.toNat]
  rfl

/-- `Char.toUpper` models Python's `str.upper()` on the ASCII fragment. -/
theorem toUpper_idem (c : Char) : c.toUpper.toUpper = c.toUpper := by
  unfold Char.toUpper
  by_cases h : c.toNat ≥ 97 ∧ c.toNat ≤ 122
  · rw [if_pos h]
    have hv : c.toNat - 32 < 55296 := by omega
    simp only [toNat_ofNat_valid hv]
    rw [if_neg (by omega)]
  · rw [if_neg h, if_neg h]

/-- `Char.toLower` models Python's `str.lower()` on the ASCII fragment. -/
theorem toLower_idem (c : Char) : c.toLower.toLower = c.toLower := by
  unfold Char.toLower
  by_cases h : c.toNat ≥ 65 ∧ c.toNat ≤ 90
  · rw [if_pos h]
    have hv : c.toNat + 32 < 55296 := by
      rcases h with ⟨h1, h2⟩
      omega
    simp only [toNat_ofNat_valid hv]
    rw [if_neg (by omega)]
  · rw [if_neg h, if_neg h]

theorem pyWS_toUpper (c : Char) (h : pyWS c = false) : pyWS c.toUpper = false := by
  unfold Char.toUpper
  by_cases hc : c.toNat ≥ 97 ∧ c.toNat ≤ 122
  · rw [if_pos hc]
    have hv : c.toNat - 32 < 55296 := by omega
    simp [pyWS, toNat_ofNat_valid hv]
    omega
  · rw [if_neg hc]; exact h

/-! ### `str.split()`, `" ".join(...)`, `str.strip()` -/

/-- Accumulator-based model of Python's `str.split()` (split on whitespace
runs, discarding empty pieces).  `acc` holds the current word reversed. -/
def pySplitAux : List Char → List Char → List (List Char)
  | [], acc => if acc.isEmpty then [] else [acc.reverse]
  | c :: cs, acc =>
    if pyWS c then
      if acc.isEmpty then pySplitAux cs [] else acc.reverse :: pySplitAux cs []
    else pySplitAux cs (c :: acc)

/-- Python `text.split()`. -/
def pySplit (l : List Char) : List (List Char) := pySplitAux l []

/-- Python `" ".join(words)`. -/
def joinSpace : List (List Char) → List Char
  | [] => []
  | [w] => w
  | w :: ws => w ++ ' ' :: joinSpace ws

/-- Left strip: drop leading whitespace. -/
def lstrip (l : List Char) : List Char := l.dropWhile pyWS

/-- Right strip: drop trailing whitespace. -/
def rstrip (l : List Char) : List Char := (l.reverse.dropWhile pyWS).reverse

/-- Python `text.strip()`. -/
def pyStrip (l : List Char) : List Char := lstrip (rstrip l)

/-- Python `text.endswith(('.', '!', '?'))`. -/
def pyEndsPunct (l : List Char) : Bool :=
  match l.getLast? with
  | some c => c == '.' || c == '!' || c == '?'
  | none => false

/-! ### `clean_text` (app/services/audio_processor.py, lines 132-148) -/

/-- Model of `clean_text`: `if not text: return ""`;
`text = " ".join(text.split())`; `text = text.strip()`;
if nonempty, capitalize the first character and append `'.'` unless the
string already ends with `'.'`, `'!'` or `'?'`. -/
def clean_text (text : String) : String :=
  if text.data.isEmpty then "" else
  let collapsed := pyStrip (joinSpace (pySplit text.data))
  match collapsed with
  | [] => ""
  | c :: rest =>
    let capitalized := c.toUpper :: rest
    ⟨if pyEndsPunct capitalized then capitalized else capitalized ++ ['.']⟩

/-! ### The normalizer the specification describes (spec §4.4)

`spec_clean` is written from the specification's words, independently of
the source: collapse every whitespace run to a single space, trim
leading/trailing whitespace, capitalize the first character, and append a
period if the result does not already end in `.`, `!` or `?`.  Empty input
yields empty output. -/

/-- Collapse every maximal whitespace run to a single `' '`. -/
def collapseWS : List Char → List Char
  | [] => []
  | [c] => [if pyWS c then ' ' else c]
  | c :: d :: cs =>
    if pyWS c && pyWS d then collapseWS (d :: cs)
    else (if pyWS c then ' ' else c) :: collapseWS (d :: cs)

/-- The text normalizer exactly as the specification words it. -/
def spec_clean (s : String) : String :=
  match pyStrip (collapseWS s.data) with
  | [] => ""
  | c :: rest =>
    let capitalized := c.toUpper :: rest
    ⟨if pyEndsPunct capitalized then capitalized else capitalized ++ ['.']⟩

/-! ### Lemmas about `pySplit`, `joinSpace`, `pyStrip` -/

/-- A word produced by `split()`: nonempty and whitespace-free. -/
def goodWord (w : List Char) : Prop := w ≠ [] ∧ ∀ c ∈ w, pyWS c = false

theorem pySplit_nil : pySplit [] = [] := rfl

theorem pySplit_ws_cons {c : Char} (h : pyWS c = true) (cs : List Char) :
    pySplit (c :: cs) = pySplit cs := by
  simp [pySplit, pySplitAux, h]

theorem pySplitAux_acc_ne (cs : List Char) : ∀ acc : List Char, acc ≠ [] →
    pySplitAux cs acc =
      (acc.reverse ++ cs.takeWhile (fun d => !pyWS d)) ::
        pySplit (cs.dropWhile (fun d => !pyWS d)) := by
  induction cs with
  | nil =>
    intro acc h
    simp [pySplitAux, pySplit, h]
  | cons c cs ih =>
    intro acc h
    by_cases hc : pyWS c
    · simp [pySplitAux, hc, h, List.takeWhile_cons, List.dropWhile_cons,
        pySplit_ws_cons hc, pySplit]
    · have := ih (c :: acc) (by simp)
      simp only [pySplitAux, hc, if_false, Bool.false_eq_true, this,
        List.takeWhile_cons, List.dropWhile_cons, Bool.not_eq_true']
      simp [hc]

theorem pySplit_cons_word {c : Char} (h : pyWS c = false) (cs : List Char) :
    pySplit (c :: cs) =
      (c :: cs.takeWhile (fun d => !pyWS d)) ::
        pySplit (cs.dropWhile (fun d => !pyWS d)) := by
  show pySplitAux (c :: cs) [] = _
  simp only [pySplitAux, h, Bool.false_eq_true, if_false]
  rw [pySplitAux_acc_ne cs [c] (by simp)]
  simp

theorem length_dropWhile_le (p : Char → Bool) (l : List Char) :
    (l.dropWhile p).length ≤ l.length := by
  induction l with
  | nil => simp
  | cons c cs ih =>
    rw [List.dropWhile_cons]
    split
    · have := ih
      simp only [List.length_cons]
      omega
    · simp

theorem pySplit_good : ∀ l : List Char, ∀ w ∈ pySplit l, goodWord w
  | [] => by simp [pySplit, pySplitAux]
  | c :: cs => by
    cases hc : pyWS c with
    | true =>
      rw [pySplit_ws_cons hc]
      exact pySplit_good cs
    | false =>
      rw [pySplit_cons_word hc]
      intro w hw
      rcases List.mem_cons.mp hw with h | h
      · subst h
        refine ⟨by simp, ?_⟩
        intro d hd
        rcases List.mem_cons.mp hd with h | h
        · subst h; exact hc
        · have := List.mem_takeWhile_imp h
          simpa using this
      · exact pySplit_good (cs.dropWhile fun d => !pyWS d) w h
  termination_by l => l.length
  decreasing_by
  all_goals simp only [List.length_cons]
  all_goals have := length_dropWhile_le (fun d => !pyWS d) cs
  all_goals omega

theorem joinSpace_cons_cons (c : Char) (w : List Char) (ws : List (List Char)) :
    joinSpace ((c :: w) :: ws) = c :: joinSpace (w :: ws) := by
  cases ws <;> simp [joinSpace]

theorem pySplitAux_all_word : ∀ w acc : List Char,
    (∀ c ∈ w, pyWS c = false) → (acc = [] → w ≠ []) →
    pySplitAux w acc = [acc.reverse ++ w] := by
  intro w
  induction w with
  | nil =>
    intro acc _ hne
    have : acc ≠ [] := fun h => (hne h) rfl
    simp [pySplitAux, this]
  | cons c w ih =>
    intro acc hw _
    have hc : pyWS c = false := hw c (by simp)
    have := ih (c :: acc) (fun d hd => hw d (by simp [hd])) (by simp)
    simp only [pySplitAux, hc, Bool.false_eq_true, if_false, this]
    simp

theorem pySplitAux_word_sep : ∀ w rest acc : List Char,
    (∀ c ∈ w, pyWS c = false) → (acc = [] → w ≠ []) →
    pySplitAux (w ++ ' ' :: rest) acc = (acc.reverse ++ w) :: pySplit rest := by
  intro w
  induction w with
  | nil =>
    intro rest acc _ hne
    have hacc : acc ≠ [] := fun h => (hne h) rfl
    have hsp : pyWS ' ' = true := by decide
    simp [pySplitAux, hsp, hacc, pySplit]
  | cons c w ih =>
    intro rest acc hw _
    have hc : pyWS c = false := hw c (by simp)
    have := ih rest (c :: acc) (fun d hd => hw d (by simp [hd])) (by simp)
    simp only [List.cons_append, pySplitAux, hc, Bool.false_eq_true, if_false,
      List.append_eq]
    rw [this]
    simp

theorem pySplit_joinSpace : ∀ ws : List (List Char),
    (∀ w ∈ ws, goodWord w) → pySplit (joinSpace ws) = ws := by
  intro ws
  induction ws with
  | nil => intro _; rfl
  | cons w ws ih =>
    intro h
    have hw : goodWord w := h w (by simp)
    cases ws with
    | nil =>
      show pySplitAux (joinSpace [w]) [] = [w]
      simp only [joinSpace]
      rw [pySplitAux_all_word w [] hw.2 (fun _ => hw.1)]
      simp
    | cons w2 ws2 =>
      show pySplitAux (w ++ ' ' :: joinSpace (w2 :: ws2)) [] = w :: w2 :: ws2
      rw [pySplitAux_word_sep w _ [] hw.2 (fun _ => hw.1)]
      simp only [List.reverse_nil, List.nil_append]
      rw [ih (fun u hu => h u (by simp [hu]))]

theorem joinSpace_head_not_ws : ∀ ws : List (List Char),
    (∀ w ∈ ws, goodWord w) → ∀ c t, joinSpace ws = c :: t → pyWS c = false := by
  intro ws h c t heq
  cases ws with
  | nil => simp [joinSpace] at heq
  | cons w ws =>
    have hw : goodWord w := h w (by simp)
    rcases hw with ⟨hne, hmem⟩
    cases w with
    | nil => exact absurd rfl hne
    | cons c0 w0 =>
      rw [joinSpace_cons_cons] at heq
      have : c0 = c := (List.cons.injEq _ _ _ _ ▸ heq).1
      subst this
      exact hmem c0 (by simp)

theorem joinSpace_cons_ne_nil (w : List Char) (ws : List (List Char)) (hw : goodWord w) :
    joinSpace (w :: ws) ≠ [] := by
  rcases hw with ⟨hne, _⟩
  cases w with
  | nil => exact absurd rfl hne
  | cons c0 w0 => rw [joinSpace_cons_cons]; simp

theorem joinSpace_reverse_not_ws : ∀ ws : List (List Char),
    (∀ w ∈ ws, goodWord w) → ∀ c t, (joinSpace ws).reverse = c :: t → pyWS c = false := by
  intro ws
  induction ws with
  | nil => intro _ c t heq; simp [joinSpace] at heq
  | cons w ws ih =>
    intro h c t heq
    have hw : goodWord w := h w (by simp)
    cases ws with
    | nil =>
      simp only [joinSpace] at heq
      have hc : c ∈ w.reverse := by rw [heq]; simp
      exact hw.2 c (List.mem_reverse.mp hc)
    | cons w2 ws2 =>
      have hjoin : joinSpace (w :: w2 :: ws2) = w ++ ' ' :: joinSpace (w2 :: ws2) := rfl
      rw [hjoin, List.reverse_append, List.reverse_cons] at heq
      have hne : joinSpace (w2 :: ws2) ≠ [] :=
        joinSpace_cons_ne_nil w2 ws2 (h w2 (by simp))
      cases hrev : (joinSpace (w2 :: ws2)).reverse with
      | nil => exact absurd (by simpa using hrev) hne
      | cons c2 t2 =>
        have h2 : pyWS c2 = false :=
          ih (fun u hu => h u (by simp [hu])) c2 t2 hrev
        rw [hrev] at heq
        simp only [List.append_assoc, List.cons_append] at heq
        have : c2 = c := (List.cons.injEq _ _ _ _ ▸ heq).1
        subst this
        exact h2

theorem lstrip_not_ws_head (l : List Char)
    (h : ∀ c t, l = c :: t → pyWS c = false) : lstrip l = l := by
  cases l with
  | nil => rfl
  | cons c t =>
    unfold lstrip
    rw [List.dropWhile_cons, h c t rfl]
    simp

theorem rstrip_not_ws_last (l : List Char)
    (h : ∀ c t, l.reverse = c :: t → pyWS c = false) : rstrip l = l := by
  unfold rstrip
  cases hrev : l.reverse with
  | nil => simpa using congrArg List.reverse hrev
  | cons c t =>
    rw [List.dropWhile_cons, h c t hrev]
    simp only [Bool.false_eq_true, if_false]
    rw [← hrev, List.reverse_reverse]

theorem pyStrip_joinSpace (ws : List (List Char)) (h : ∀ w ∈ ws, goodWord w) :
    pyStrip (joinSpace ws) = joinSpace ws := by
  unfold pyStrip
  rw [rstrip_not_ws_last _ (joinSpace_reverse_not_ws ws h),
    lstrip_not_ws_head _ (joinSpace_head_not_ws ws h)]

theorem rstrip_cons_not_ws {c : Char} (h : pyWS c = false) (l : List Char) :
    rstrip (c :: l) = c :: rstrip l := by
  unfold rstrip
  rw [List.reverse_cons, List.dropWhile_append]
  split
  · next hemp =>
    rw [List.isEmpty_iff] at hemp
    rw [hemp, List.dropWhile_cons, h]
    simp
  · next hne =>
    rw [List.reverse_append]
    simp

theorem rstrip_cons_ws {c : Char} (h : pyWS c = true) (l : List Char) :
    rstrip (c :: l) = if rstrip l = [] then [] else c :: rstrip l := by
  unfold rstrip
  rw [List.reverse_cons, List.dropWhile_append]
  split
  · next hemp =>
    rw [List.isEmpty_iff] at hemp
    rw [hemp, if_pos (by simp [hemp]), List.dropWhile_cons, h]
    simp
  · next hne =>
    rw [List.isEmpty_iff] at hne
    rw [if_neg (by simpa using hne), List.reverse_append]
    simp

/-- Head test used to describe the leading-whitespace marker. -/
def headWS : List Char → Bool
  | [] => false
  | c :: _ => pyWS c

theorem rstrip_collapseWS : ∀ l : List Char,
    rstrip (collapseWS l) =
      if headWS l && !(pySplit l).isEmpty then ' ' :: joinSpace (pySplit l)
      else joinSpace (pySplit l) := by
  intro l
  induction l with
  | nil => simp [collapseWS, rstrip, headWS, pySplit, pySplitAux, joinSpace]
  | cons c cs ih =>
    cases cs with
    | nil =>
      cases hc : pyWS c with
      | true =>
        have : pySplit [c] = [] := by rw [pySplit_ws_cons hc]; rfl
        simp [collapseWS, hc, this, headWS, joinSpace]
        rfl
      | false =>
        have : pySplit [c] = [[c]] := by rw [pySplit_cons_word hc]; rfl
        simp only [collapseWS, hc, Bool.false_eq_true, if_false, this, headWS]
        rw [rstrip_cons_not_ws hc]
        simp [rstrip, joinSpace]
    | cons d cs =>
      cases hc : pyWS c with
      | true =>
        cases hd : pyWS d with
        | true =>
          have hcol : collapseWS (c :: d :: cs) = collapseWS (d :: cs) := by
            simp [collapseWS, hc, hd]
          rw [hcol, ih, pySplit_ws_cons hc]
          simp [headWS, hc, hd]
        | false =>
          have hcol : collapseWS (c :: d :: cs) = ' ' :: collapseWS (d :: cs) := by
            simp [collapseWS, hc, hd]
          have hsplit : pySplit (d :: cs) =
              (d :: cs.takeWhile (fun e => !pyWS e)) ::
                pySplit (cs.dropWhile (fun e => !pyWS e)) := pySplit_cons_word hd cs
          have hjne : joinSpace (pySplit (d :: cs)) ≠ [] := by
            rw [hsplit]
            exact joinSpace_cons_ne_nil _ _
              (pySplit_good (d :: cs) _ (by rw [hsplit]; simp))
          have hjemp : (pySplit (d :: cs)).isEmpty = false := by
            rw [hsplit]; rfl
          rw [hcol, rstrip_cons_ws (by decide), ih]
          simp only [headWS, hd, Bool.false_and, Bool.false_eq_true, if_false]
          rw [if_neg hjne, pySplit_ws_cons hc]
          simp only [headWS, hc, Bool.true_and, hjemp, Bool.not_false, if_true]
      | false =>
        have hcol : collapseWS (c :: d :: cs) = c :: collapseWS (d :: cs) := by
          simp [collapseWS, hc]
        rw [hcol, rstrip_cons_not_ws hc, ih, pySplit_cons_word hc]
        simp only [headWS, hc, Bool.false_eq_true, Bool.false_and, if_false]
        by_cases hd : pyWS d = true
        · simp only [hd, List.takeWhile_cons, List.dropWhile_cons, Bool.not_true,
            Bool.false_eq_true, if_false, Bool.true_and]
          cases hsp : pySplit (d :: cs) with
          | nil =>
            simp [joinSpace]
          | cons w ws =>
            simp only [List.isEmpty_cons, Bool.not_false, if_true]
            simp [joinSpace]
        · have hd' : pyWS d = false := by simpa using hd
          simp only [hd', Bool.false_eq_true, Bool.false_and, if_false,
            List.takeWhile_cons, List.dropWhile_cons, Bool.not_false, if_true]
          rw [joinSpace_cons_cons, ← pySplit_cons_word hd']

theorem lstrip_joinSpace_pySplit (l : List Char) :
    lstrip (joinSpace (pySplit l)) = joinSpace (pySplit l) :=
  lstrip_not_ws_head _ (joinSpace_head_not_ws _ (pySplit_good l))

theorem pyStrip_collapseWS (l : List Char) :
    pyStrip (collapseWS l) = joinSpace (pySplit l) := by
  unfold pyStrip
  rw [rstrip_collapseWS]
  split
  · show lstrip (' ' :: joinSpace (pySplit l)) = _
    unfold lstrip
    rw [List.dropWhile_cons]
    simp only [show pyWS ' ' = true by decide, if_true]
    exact lstrip_joinSpace_pySplit l
  · exact lstrip_joinSpace_pySplit l

theorem clean_core (l : List Char) :
    pyStrip (joinSpace (pySplit l)) = joinSpace (pySplit l) :=
  pyStrip_joinSpace _ (pySplit_good l)

theorem clean_text_eq_spec_clean (s : String) : clean_text s = spec_clean s := by
  unfold clean_text spec_clean
  rw [clean_core, pyStrip_collapseWS]
  by_cases h : s.data.isEmpty
  · rw [if_pos h]
    have hd : s.data = [] := List.isEmpty_iff.mp h
    rw [hd]
    rfl
  · rw [if_neg h]

/-! ### Idempotence machinery: appending the final period inside the word list -/

/-- Append a character to the last word of a word list. -/
def appendLast (c : Char) : List (List Char) → List (List Char)
  | [] => [[c]]
  | [w] => [w ++ [c]]
  | w :: ws => w :: appendLast c ws

theorem appendLast_ne_nil (c : Char) : ∀ ws : List (List Char), appendLast c ws ≠ []
  | [] => by simp [appendLast]
  | [w] => by simp [appendLast]
  | w :: w2 :: ws => by simp [appendLast]

theorem joinSpace_cons_of_ne (w : List Char) (ws : List (List Char)) (h : ws ≠ []) :
    joinSpace (w :: ws) = w ++ ' ' :: joinSpace ws := by
  cases ws with
  | nil => exact absurd rfl h
  | cons w2 ws2 => rfl

theorem joinSpace_appendLast (c : Char) : ∀ ws : List (List Char), ws ≠ [] →
    joinSpace (appendLast c ws) = joinSpace ws ++ [c] := by
  intro ws
  induction ws with
  | nil => intro h; exact absurd rfl h
  | cons w ws ih =>
    intro _
    cases ws with
    | nil => simp [appendLast, joinSpace]
    | cons w2 ws2 =>
      have hA : appendLast c (w2 :: ws2) ≠ [] := appendLast_ne_nil c _
      show joinSpace (w :: appendLast c (w2 :: ws2)) = _
      rw [joinSpace_cons_of_ne _ _ hA, ih (by simp)]
      show _ = (w ++ ' ' :: joinSpace (w2 :: ws2)) ++ [c]
      simp

theorem goodWord_appendLast {c : Char} (hc : pyWS c = false) :
    ∀ ws : List (List Char), (∀ w ∈ ws, goodWord w) →
      ∀ w ∈ appendLast c ws, goodWord w
  | [] => by
    intro _ w hw
    simp [appendLast] at hw
    subst hw
    exact ⟨by simp, by intro d hd; simp at hd; subst hd; exact hc⟩
  | [w0] => by
    intro h w hw
    simp [appendLast] at hw
    subst hw
    have h0 : goodWord w0 := h w0 (by simp)
    refine ⟨by simp [h0.1], ?_⟩
    intro d hd
    rcases List.mem_append.mp hd with h1 | h1
    · exact h0.2 d h1
    · simp at h1; subst h1; exact hc
  | w0 :: w1 :: ws => by
    intro h w hw
    rcases List.mem_cons.mp hw with h1 | h1
    · subst h1; exact h w (by simp)
    · exact goodWord_appendLast hc (w1 :: ws) (fun u hu => h u (by simp [hu])) w h1

/-- Structure of every `clean_text` output: either empty, or the space-join of
a nonempty list of good words whose first character is `toUpper`-fixed and
whose last character is terminal punctuation. -/
theorem clean_text_output (s : String) :
    clean_text s = "" ∨
    ∃ ws : List (List Char), (∀ w ∈ ws, goodWord w) ∧
      (clean_text s).data = joinSpace ws ∧
      (∃ c0 r0, joinSpace ws = c0 :: r0 ∧ c0.toUpper = c0) ∧
      pyEndsPunct (joinSpace ws) = true := by
  unfold clean_text
  by_cases hemp : s.data.isEmpty
  · rw [if_pos hemp]; left; rfl
  · rw [if_neg hemp, clean_core]
    cases hsp : pySplit s.data with
    | nil => left; rfl
    | cons w ws' =>
      have hgood : ∀ u ∈ w :: ws', goodWord u := by rw [← hsp]; exact pySplit_good s.data
      have hw : goodWord w := hgood w (by simp)
      rcases hw with ⟨hne, hmem⟩
      cases w with
      | nil => exact absurd rfl hne
      | cons c0 w0 =>
        right
        rw [joinSpace_cons_cons]
        set ws₂ : List (List Char) := (c0.toUpper :: w0) :: ws' with hws₂
        have hgood₂ : ∀ u ∈ ws₂, goodWord u := by
          intro u hu
          rcases List.mem_cons.mp hu with h1 | h1
          · subst h1
            refine ⟨by simp, ?_⟩
            intro d hd
            rcases List.mem_cons.mp hd with h2 | h2
            · subst h2; exact pyWS_toUpper c0 (hmem c0 (by simp))
            · exact hmem d (by simp [h2])
          · exact hgood u (by simp [h1])
        have hcap : c0.toUpper :: joinSpace (w0 :: ws') = joinSpace ws₂ := by
          rw [hws₂, joinSpace_cons_cons]
        by_cases hp : pyEndsPunct (c0.toUpper :: joinSpace (w0 :: ws')) = true
        · refine ⟨ws₂, hgood₂, ?_,
            ⟨c0.toUpper, joinSpace (w0 :: ws'), ?_, toUpper_idem c0⟩, ?_⟩
          · dsimp only
            rw [if_pos hp, hcap]
          · rw [← hcap]
          · rw [← hcap]; exact hp
        · refine ⟨appendLast '.' ws₂,
            goodWord_appendLast (by decide) ws₂ hgood₂, ?_, ?_, ?_⟩
          · dsimp only
            rw [if_neg hp, joinSpace_appendLast _ _ (by rw [hws₂]; simp), ← hcap]
          · refine ⟨c0.toUpper, joinSpace (w0 :: ws') ++ ['.'], ?_, toUpper_idem c0⟩
            rw [joinSpace_appendLast _ _ (by rw [hws₂]; simp), ← hcap]
            rfl
          · rw [joinSpace_appendLast _ _ (by rw [hws₂]; simp)]
            simp [pyEndsPunct, List.getLast?_concat]

/-- Claim C6: `clean_text` satisfies the normalizer contract of spec §4.4 —
it coincides with `spec_clean` (collapse internal whitespace runs to single
spaces, trim, capitalize the first character, append a period unless the
text already ends in `.`, `!` or `?`; empty input gives empty output) on
every string, and in particular on the three examples the spec lists. -/
theorem C6_clean_text_contract :
    (∀ s : String, clean_text s = spec_clean s) ∧
    clean_text "" = "" ∧
    clean_text "  hello world  " = "Hello world." ∧
    clean_text "already punctuated!" = "Already punctuated!" :=
  ⟨clean_text_eq_spec_clean, by decide, by decide, by decide⟩

/-- Claim C7: `clean_text` is idempotent: cleaning an already-cleaned string
changes nothing. -/
theorem C7_clean_text_idempotent (x : String) :
    clean_text (clean_text x) = clean_text x := by
  rcases clean_text_output x with h | ⟨ws, hgood, hdata, ⟨c0, r0, hcons, hfix⟩, hpunct⟩
  · rw [h]; decide
  · have hx : clean_text x = ⟨joinSpace ws⟩ := String.ext hdata
    rw [hx]
    unfold clean_text
    rw [pySplit_joinSpace ws hgood, pyStrip_joinSpace ws hgood, hcons]
    simp only [List.isEmpty_cons, Bool.false_eq_true, if_false]
    rw [hfix]
    have hp : pyEndsPunct (c0 :: r0) = true := by rw [← hcons]; exact hpunct
    rw [if_pos hp]

/-! ### `os.path` helpers and `str.lower()` -/

/-- Python `s.lower()` (ASCII fragment). -/
def pyLower (s : String) : String := ⟨s.data.map Char.toLower⟩

theorem pyLower_idem (s : String) : pyLower (pyLower s) = pyLower s := by
  apply String.ext
  simp only [pyLower, List.map_map]
  simp [Function.comp_def, toLower_idem]

/-- Final path component (split at the last `'/'`), as `os.path.splitext`
works on it. -/
def basenamePart (p : List Char) : List Char :=
  (p.reverse.takeWhile (fun c => c != '/')).reverse

/-- Extension part of Python `os.path.splitext(p)[1]`: the suffix starting at
the last dot of the final path component — empty when there is no dot, or
when every character of that component before its last dot is itself a dot
(leading dots do not begin an extension). -/
def splitextExt (p : List Char) : List Char :=
  let rb := (basenamePart p).reverse
  let afterDot := rb.takeWhile (fun c => c != '.')
  match rb.dropWhile (fun c => c != '.') with
  | [] => []
  | _ :: beforeRev =>
    if beforeRev.any (fun c => c != '.') then '.' :: afterDot.reverse else []

/-- Root part of Python `os.path.splitext(p)[0]` (the extension is a suffix). -/
def splitextRoot (p : List Char) : List Char :=
  p.take (p.length - (splitextExt p).length)

/-! ### `convert_audio_format` and `transcribe_audio`
(app/services/audio_processor.py)

The file system is the list of paths that currently exist. -/

/-- Model of `convert_audio_format` (lines 47-56): decode the input and
export it as `<splitext-root>.<target_format>`, creating that file.  Returns
the updated file system together with the created path (the function's local
`temp_path`, which is returned to the caller). -/
def convert_audio_format (fs : List String) (audio_file_path : String)
    (target_format : String) : List String × String :=
  let temp_path : String := ⟨splitextRoot audio_file_path.data⟩ ++ "." ++ target_format
  (temp_path :: fs, temp_path)

/-- The local variable names ever assigned in the body of `transcribe_audio`
(lines 58-130), i.e. what `locals()` can contain in that frame.  The
conversion result is rebound to `audio_file_path`; the name `temp_path` is a
local of `convert_audio_format` only and never of `transcribe_audio`. -/
def transcribe_audio_locals : List String :=
  ["audio_file_path", "language", "kwargs", "model", "processor", "audio",
   "samples", "input_features", "predicted_ids", "transcription", "metadata", "e"]

/-- Model of `transcribe_audio` (lines 58-130) as a file-system transformer.
`loadOk`, `decodeOk`, `inferOk` say whether the model load, the audio decode
and the inference succeed; `asrText` is the text the model produces.  The
`finally` block deletes the conversion artifact only under the guard
`'temp_path' in locals() and os.path.exists(temp_path)`, evaluated in
`transcribe_audio`'s own frame. -/
def transcribe_audio (fs : List String) (audio_file_path : String)
    (loadOk decodeOk inferOk : Bool) (asrText : String) :
    Except Unit String × List String :=
  let (res, fs1) :=
    if !loadOk then (Except.error (), fs)
    else
      let (fsc, _wavPath) :=
        if !(".wav".data.isSuffixOf (pyLower audio_file_path).data) then
          convert_audio_format fs audio_file_path "wav"
        else (fs, audio_file_path)
      if !decodeOk then (Except.error (), fsc)
      else if !inferOk then (Except.error (), fsc)
      else (Except.ok asrText, fsc)
  let temp_path : String := ⟨splitextRoot audio_file_path.data⟩ ++ ".wav"
  if transcribe_audio_locals.contains "temp_path" then
    (res, if fs1.contains temp_path then fs1.erase temp_path else fs1)
  else (res, fs1)

/-- Claim C1 (code bug): the intermediate WAV produced by
`convert_audio_format` is NOT deleted when `transcribe_audio` returns or
raises.  The `finally` cleanup is guarded by `'temp_path' in locals()`, but
`temp_path` is never bound in `transcribe_audio`'s frame (the conversion
result is rebound to `audio_file_path`), so the guard is always false and
the artifact survives — here shown on a concrete `.mp3` input both for a
successful run and for a failed inference. -/
theorem C1_temp_wav_not_deleted :
    (transcribe_audio ["uploads/audio/rec.mp3"] "uploads/audio/rec.mp3"
        true true true "hi").1 = Except.ok "hi" ∧
    (transcribe_audio ["uploads/audio/rec.mp3"] "uploads/audio/rec.mp3"
        true true true "hi").2.contains "uploads/audio/rec.wav" = true ∧
    (transcribe_audio ["uploads/audio/rec.mp3"] "uploads/audio/rec.mp3"
        true true false "hi").2.contains "uploads/audio/rec.wav" = true := by
  refine ⟨rfl, by decide, by decide⟩

/-! ### HTTP layer (app/api/endpoints/audio.py) -/

structure HTTPException where
  status_code : Nat
deriving DecidableEq, Repr

/-- An upload stream: its declared filename and whether `close()` was called. -/
structure UploadFile where
  filename : String
  closed : Bool
deriving DecidableEq, Repr

def UPLOAD_DIR : String := "uploads/audio"

/-- Model of `save_upload_file` (lines 24-43): write the stream to
`destination` in 1 MiB chunks.  On a write failure the partially written
file is deleted again (net effect: no file) and a 500 error is raised; the
`finally` block closes the upload stream on both paths. -/
def save_upload_file (upload_file : UploadFile) (destination : String)
    (fs : List String) (writeOk : Bool) :
    Except HTTPException String × List String × UploadFile :=
  if writeOk then
    (Except.ok destination, destination :: fs, { upload_file with closed := true })
  else
    (Except.error ⟨500⟩, fs, { upload_file with closed := true })

/-- The endpoint's extension allow-list (line 57). -/
def allowedExtensions : List String := [".wav", ".mp3", ".m4a", ".ogg", ".webm"]

/-- Lines 56-57: `file_ext = os.path.splitext(audio_file.filename.lower())[1]`
tested for membership in the allow-list. -/
def uploadAccepted (filename : String) : Bool :=
  allowedExtensions.contains ⟨splitextExt (pyLower filename).data⟩

/-- The successful payload of `POST /api/transcribe/`. -/
structure TranscriptionOk where
  text : String
  audio_path : String
  language : String
deriving DecidableEq, Repr

/-- Model of `transcribe_audio_file` (`POST /api/transcribe/`, lines 45-100):
validate the extension (400 before anything is written), save under a fresh
uuid name, transcribe, and on a transcription failure delete the uploaded
file again and raise 500. -/
def transcribe_audio_file (audio_file : UploadFile) (uuidName : String)
    (fs : List String) (writeOk loadOk decodeOk inferOk : Bool)
    (asrText : String) (language : String) :
    Except HTTPException TranscriptionOk × List String × UploadFile :=
  if !(uploadAccepted audio_file.filename) then
    (Except.error ⟨400⟩, fs, audio_file)
  else
    let file_ext : String := ⟨splitextExt (pyLower audio_file.filename).data⟩
    let file_path := UPLOAD_DIR ++ "/" ++ uuidName ++ file_ext
    match save_upload_file audio_file file_path fs writeOk with
    | (Except.error e, fs1, f1) => (Except.error e, fs1, f1)
    | (Except.ok _, fs1, f1) =>
      match transcribe_audio fs1 file_path loadOk decodeOk inferOk asrText with
      | (Except.ok text, fs2) =>
          (Except.ok ⟨text, file_path, language⟩, fs2, f1)
      | (Except.error _, fs2) =>
          (Except.error ⟨500⟩,
            if fs2.contains file_path then fs2.erase file_path else fs2, f1)

/-- Claim C4: extension validation — a filename whose (lowercased,
`splitext`-extracted) extension is outside the allow-list is rejected with
400 and the file system is untouched; a filename whose extension is in the
allow-list never produces a 400 (later failures surface as 500). -/
theorem C4_extension_allow_list (audio_file : UploadFile) (uuidName : String)
    (fs : List String) (writeOk loadOk decodeOk inferOk : Bool)
    (asrText language : String) :
    (uploadAccepted audio_file.filename = false →
      transcribe_audio_file audio_file uuidName fs writeOk loadOk decodeOk
        inferOk asrText language = (Except.error ⟨400⟩, fs, audio_file)) ∧
    (uploadAccepted audio_file.filename = true →
      (transcribe_audio_file audio_file uuidName fs writeOk loadOk decodeOk
        inferOk asrText language).1 ≠ Except.error ⟨400⟩) := by
  constructor
  · intro h
    simp [transcribe_audio_file, h]
  · intro h
    unfold transcribe_audio_file
    rw [h]
    simp only [Bool.not_true, Bool.false_eq_true, if_false]
    cases writeOk with
    | false => simp [save_upload_file]
    | true =>
      simp only [save_upload_file, if_true]
      split
      · simp
      · split <;> simp

/-- Claim C3, counterexample: on the extension-validation failure path the
handler returns 400 without ever calling `save_upload_file`, so the upload
stream is NOT closed — here a concrete still-open `.txt` upload comes back
with `closed = false`. -/
theorem C3_counterexample_validation_path_leaves_stream_open :
    (transcribe_audio_file ⟨"notes.txt", false⟩ "u1" [] true true true true
        "hi" "en").1 = Except.error ⟨400⟩ ∧
    (transcribe_audio_file ⟨"notes.txt", false⟩ "u1" [] true true true true
        "hi" "en").2.2.closed = false := by
  exact ⟨rfl, by decide⟩

/-- Claim C3 as amended: the upload stream ends up closed exactly when it was
already closed or the extension check passes — `save_upload_file`'s
`finally` closes it on success and on write failure, but the 400
validation path returns before `save_upload_file` runs and leaves it open. -/
theorem C3_stream_closed_iff_saved (audio_file : UploadFile) (uuidName : String)
    (fs : List String) (writeOk loadOk decodeOk inferOk : Bool)
    (asrText language : String) :
    (transcribe_audio_file audio_file uuidName fs writeOk loadOk decodeOk
        inferOk asrText language).2.2.closed =
      (audio_file.closed || uploadAccepted audio_file.filename) := by
  unfold transcribe_audio_file
  cases ha : uploadAccepted audio_file.filename with
  | false => simp
  | true =>
    simp only [Bool.not_true, Bool.false_eq_true, if_false, Bool.or_true]
    cases writeOk with
    | false => simp [save_upload_file]
    | true =>
      simp only [save_upload_file, if_true]
      split
      · simp
      · split <;> simp

/-- Claim C10: extension validation is case-insensitive — the filename is
lowercased before `splitext`, so acceptance only depends on the lowercased
filename: any two filenames with the same lowercase form are accepted or
rejected together, every filename is treated exactly like its lowercase
form, and e.g. `x.WAV` and `x.Mp3` are accepted. -/
theorem C10_validation_case_insensitive :
    (∀ f g : String, pyLower f = pyLower g → uploadAccepted f = uploadAccepted g) ∧
    (∀ f : String, uploadAccepted f = uploadAccepted (pyLower f)) ∧
    uploadAccepted "x.WAV" = true ∧ uploadAccepted "x.Mp3" = true := by
  refine ⟨?_, ?_, by decide, by decide⟩
  · intro f g h
    unfold uploadAccepted
    rw [h]
  · intro f
    unfold uploadAccepted
    rw [pyLower_idem]

/-- Witness for C10: `A.WAV` is accepted exactly as `a.wav` is. -/
theorem C10_validation_case_insensitive_witness :
    uploadAccepted "A.WAV" = uploadAccepted "a.wav" :=
  C10_validation_case_insensitive.1 "A.WAV" "a.wav" (by decide)

/-- Witness for C4: the rejected `.txt` upload and the accepted `.wav`
upload, with both hypotheses discharged by computation. -/
theorem C4_extension_allow_list_witness :
    transcribe_audio_file ⟨"a.txt", false⟩ "u1" [] true true true true "hi" "en"
        = (Except.error ⟨400⟩, [], ⟨"a.txt", false⟩) ∧
    (transcribe_audio_file ⟨"a.wav", false⟩ "u1" [] true true true true "hi" "en").1
        ≠ Except.error ⟨400⟩ :=
  ⟨(C4_extension_allow_list ⟨"a.txt", false⟩ "u1" [] true true true true "hi" "en").1
      (by decide),
   (C4_extension_allow_list ⟨"a.wav", false⟩ "u1" [] true true true true "hi" "en").2
      (by decide)⟩

/-! ### Database model (`journal_entries` table) -/

/-- A persisted journal entry (id, owner, content, optional audio reference,
timestamps; `updated_at` is refreshed on mutation). -/
structure JournalEntry where
  id : Nat
  user_id : Nat
  content : String
  audio_path : Option String
  created_at : Nat
  updated_at : Nat
deriving DecidableEq, Repr

/-! ### Pydantic schema `JournalEntryCreate` (app/schemas/journal.py)

`content` and `audio_path` come from `JournalEntryBase`;
`user_id : int = Field(...)` is declared on `JournalEntryCreate` itself and
`Field(...)` makes it REQUIRED. -/

structure JournalEntryCreate where
  content : String
  audio_path : Option String
  user_id : Int
deriving DecidableEq, Repr

/-- Pydantic construction `JournalEntryCreate(...)`: each argument is the
keyword's value if it was passed.  `content` and `user_id` are required
fields, so omitting either raises a `ValidationError`; `audio_path`
defaults to `None`. -/
def JournalEntryCreate.validate (content : Option String)
    (audio_path : Option (Option String)) (user_id : Option Int) :
    Except String JournalEntryCreate :=
  match content, user_id with
  | some c, some u => Except.ok ⟨c, audio_path.getD none, u⟩
  | _, _ => Except.error "ValidationError: field required"

/-- The keywords present in `journal_data.dict()` for a `JournalEntryCreate`. -/
def JournalEntryCreate.fieldNames : List String :=
  ["content", "audio_path", "user_id"]

/-- Model of `JournalEntry(**journal_data.dict(), user_id=1)` followed by
`db.add` / `db.commit` / `db.refresh`: `journal_data.dict()` already carries
the keyword `user_id`, so passing `user_id=1` as well is a `TypeError`
(`got multiple values for keyword argument`) and nothing is added.  The
(unreachable) success path appends a hydrated row with fresh id and
timestamps. -/
def addJournalEntry (journal_data : JournalEntryCreate) (user_id : Nat)
    (db : List JournalEntry) (now : Nat) :
    Except String JournalEntry × List JournalEntry :=
  if JournalEntryCreate.fieldNames.contains "user_id" then
    (Except.error "TypeError: multiple values for keyword argument", db)
  else
    let e : JournalEntry := ⟨db.length + 1, user_id, journal_data.content,
      journal_data.audio_path, now, now⟩
    (Except.ok e, db ++ [e])

/-- Model of `create_journal_from_text` (`POST /api/journal/text/`,
lines 144-176): clean the text, build a `JournalEntryCreate` passing only
`content=` and `audio_path=` (no `user_id`), store it; any exception makes
the handler roll the session back and answer 500. -/
def create_journal_from_text (content : String) (db : List JournalEntry)
    (now : Nat) : Except HTTPException JournalEntry × List JournalEntry :=
  let cleaned_text := clean_text content
  match JournalEntryCreate.validate (some cleaned_text) (some none) none with
  | Except.error _ => (Except.error ⟨500⟩, db)
  | Except.ok journal_data =>
    match addJournalEntry journal_data 1 db now with
    | (Except.error _, db1) => (Except.error ⟨500⟩, db1)
    | (Except.ok e, db1) => (Except.ok e, db1)

/-- Claim C2 (code bug): `POST /api/journal/text/` can never persist
anything.  The `JournalEntryCreate` schema requires `user_id`, but the
endpoint constructs it with only `content` and `audio_path`, so pydantic
raises `ValidationError` on every request and the handler rolls back and
answers 500 with the database unchanged — a journal entry whose content is
`clean_text(content)` is never created, for any input. -/
theorem C2_create_from_text_never_persists (content : String)
    (db : List JournalEntry) (now : Nat) :
    create_journal_from_text content db now = (Except.error ⟨500⟩, db) := rfl

/-- Model of `create_journal_from_audio` (`POST /api/journal/audio/`,
lines 102-142): run the transcription endpoint (language defaults to
`"en"`), re-raise its `HTTPException`s, then build a `JournalEntryCreate`
from the returned text and path — again without `user_id`, so this endpoint
500s on the same `ValidationError` whenever transcription succeeds.  (The
`transcription["status"] != "success"` check can never fire: the nested
call only returns with `status == "success"`.) -/
def create_journal_from_audio (audio_file : UploadFile) (uuidName : String)
    (fs : List String) (writeOk loadOk decodeOk inferOk : Bool)
    (asrText : String) (db : List JournalEntry) (now : Nat) :
    Except HTTPException JournalEntry × List String × List JournalEntry :=
  match transcribe_audio_file audio_file uuidName fs writeOk loadOk decodeOk
      inferOk asrText "en" with
  | (Except.error e, fs1, _) => (Except.error e, fs1, db)
  | (Except.ok transcription, fs1, _) =>
    match JournalEntryCreate.validate (some transcription.text)
        (some (some transcription.audio_path)) none with
    | Except.error _ => (Except.error ⟨500⟩, fs1, db)
    | Except.ok journal_data =>
      match addJournalEntry journal_data 1 db now with
      | (Except.error _, db1) => (Except.error ⟨500⟩, fs1, db1)
      | (Except.ok e, db1) => (Except.ok e, fs1, db1)

/-! ### `GET /api/journal/{id}/transcribe` (lines 178-223) -/

/-- The test of line 196, Python truthiness included:
`not journal.audio_path or not os.path.exists(journal.audio_path)`
(`None` and `""` are falsy; `os.path.exists` is membership in the file
system). -/
def audioMissing (fs : List String) (audio_path : Option String) : Bool :=
  match audio_path with
  | none => true
  | some p => p == "" || !(fs.contains p)

/-- Model of `transcribe_existing_journal_audio`: 404 when no row has the
id; 400 when the audio reference is absent or the file does not exist;
otherwise re-transcribe, overwrite only the entry's `content` (the ORM
refreshes `updated_at` on commit), and return the new text.  Failures of
the transcription itself roll back and answer 500. -/
def transcribe_existing_journal_audio (journal_id : Nat)
    (db : List JournalEntry) (fs : List String)
    (loadOk decodeOk inferOk : Bool) (asrText : String) (now : Nat) :
    Except HTTPException (Nat × String) × List JournalEntry × List String :=
  match db.find? (fun j => j.id == journal_id) with
  | none => (Except.error ⟨404⟩, db, fs)
  | some journal =>
    if audioMissing fs journal.audio_path then
      (Except.error ⟨400⟩, db, fs)
    else
      match transcribe_audio fs (journal.audio_path.getD "") loadOk decodeOk
          inferOk asrText with
      | (Except.ok text, fs2) =>
        (Except.ok (journal_id, text),
         db.map (fun j => if j.id == journal_id then
            { j with content := text, updated_at := now } else j),
         fs2)
      | (Except.error _, fs2) => (Except.error ⟨500⟩, db, fs2)

/-- Claim C5: re-transcription answers 404 for an id that matches no entry
and 400 when the entry's audio reference is `None` or names a file that
does not exist; in both error cases the database — in particular the
entry's stored content — is returned unchanged. -/
theorem C5_retranscribe_error_paths (journal_id : Nat)
    (db : List JournalEntry) (fs : List String)
    (loadOk decodeOk inferOk : Bool) (asrText : String) (now : Nat) :
    (db.find? (fun j => j.id == journal_id) = none →
      transcribe_existing_journal_audio journal_id db fs loadOk decodeOk
        inferOk asrText now = (Except.error ⟨404⟩, db, fs)) ∧
    (∀ j, db.find? (fun j => j.id == journal_id) = some j →
      (j.audio_path = none ∨ ∃ p, j.audio_path = some p ∧ fs.contains p = false) →
      transcribe_existing_journal_audio journal_id db fs loadOk decodeOk
        inferOk asrText now = (Except.error ⟨400⟩, db, fs)) := by
  constructor
  · intro h
    unfold transcribe_existing_journal_audio
    rw [h]
  · intro j hfind hmiss
    have hm : audioMissing fs j.audio_path = true := by
      rcases hmiss with h | ⟨p, hp, hc⟩
      · rw [h]; rfl
      · rw [hp]
        simp only [audioMissing]
        rw [hc]
        simp
    unfold transcribe_existing_journal_audio
    rw [hfind]
    simp [hm]

/-- Witness for C5: a concrete 404 (empty table) and a concrete 400 (entry
without an audio reference), both via the theorem itself. -/
theorem C5_retranscribe_error_paths_witness :
    transcribe_existing_journal_audio 1 [] ["f.wav"] true true true "t" 5
        = (Except.error ⟨404⟩, [], ["f.wav"]) ∧
    transcribe_existing_journal_audio 1 [⟨1, 1, "old", none, 0, 0⟩]
        ["f.wav"] true true true "t" 5
        = (Except.error ⟨400⟩, [⟨1, 1, "old", none, 0, 0⟩], ["f.wav"]) :=
  ⟨(C5_retranscribe_error_paths 1 [] ["f.wav"] true true true "t" 5).1 rfl,
   (C5_retranscribe_error_paths 1 [⟨1, 1, "old", none, 0, 0⟩] ["f.wav"]
      true true true "t" 5).2 ⟨1, 1, "old", none, 0, 0⟩ (by decide) (Or.inl rfl)⟩

/-- Claim C8: on a successful re-transcription only the target entry's
`content` (plus its `updated_at` timestamp) changes — every other entry, and
every other field of the target entry including `audio_path`, is preserved —
and re-transcription is the only journal operation that mutates an existing
entry: both create endpoints leave the stored table exactly as it was. -/
theorem C8_retranscribe_only_mutator :
    (∀ journal_id db fs loadOk decodeOk inferOk asrText now j text fs2,
      db.find? (fun e => e.id == journal_id) = some j →
      audioMissing fs j.audio_path = false →
      transcribe_audio fs (j.audio_path.getD "") loadOk decodeOk inferOk
          asrText = (Except.ok text, fs2) →
      transcribe_existing_journal_audio journal_id db fs loadOk decodeOk
          inferOk asrText now =
        (Except.ok (journal_id, text),
         db.map (fun e => if e.id == journal_id then
            { e with content := text, updated_at := now } else e),
         fs2)) ∧
    (∀ content db now,
      (create_journal_from_text content db now).2 = db) ∧
    (∀ audio_file uuidName fs writeOk loadOk decodeOk inferOk asrText db now,
      (create_journal_from_audio audio_file uuidName fs writeOk loadOk
        decodeOk inferOk asrText db now).2.2 = db) := by
  refine ⟨?_, ?_, ?_⟩
  · intro journal_id db fs loadOk decodeOk inferOk asrText now j text fs2
      hfind hmiss htr
    unfold transcribe_existing_journal_audio
    rw [hfind]
    simp only [hmiss, Bool.false_eq_true, if_false]
    rw [htr]
  · intro content db now
    rfl
  · intro audio_file uuidName fs writeOk loadOk decodeOk inferOk asrText db now
    unfold create_journal_from_audio
    split <;> rfl

/-- Witness for C8: a concrete successful re-transcription overwriting the
content of entry 1 while keeping its audio path, derived from the theorem. -/
theorem C8_retranscribe_only_mutator_witness :
    transcribe_existing_journal_audio 1
        [⟨1, 1, "old", some "uploads/audio/a.wav", 0, 0⟩]
        ["uploads/audio/a.wav"] true true true "new text" 7 =
      (Except.ok (1, "new text"),
       [⟨1, 1, "new text", some "uploads/audio/a.wav", 0, 7⟩],
       ["uploads/audio/a.wav"]) := by
  have h := C8_retranscribe_only_mutator.1 1
    [⟨1, 1, "old", some "uploads/audio/a.wav", 0, 0⟩]
    ["uploads/audio/a.wav"] true true true "new text" 7
    ⟨1, 1, "old", some "uploads/audio/a.wav", 0, 0⟩ "new text"
    ["uploads/audio/a.wav"] (by decide) (by decide) rfl
  rw [h]
  rfl

/-! ### `load_glm_model` (app/services/audio_processor.py, lines 14-45) -/

/-- The process-wide globals `_model` and `_processor`; opaque library
objects are represented by numeric instance identities. -/
structure GlmGlobals where
  model : Option Nat
  processor : Option Nat
deriving DecidableEq, Repr

/-- How one expensive load attempt goes: the processor is loaded first, then
the model; either `from_pretrained` call may raise. -/
inductive LoadAttempt where
  | success (processorInst modelInst : Nat)
  | failAtProcessor
  | failAtModel (processorInst : Nat)
deriving DecidableEq, Repr

/-- Model of `load_glm_model`: when `_model is None or _processor is None`,
perform the expensive load (assigning the globals as the source does) and
re-raise failures; otherwise return the existing instances untouched.  The
final `Nat` counts the expensive load attempts performed by this call. -/
def load_glm_model (s : GlmGlobals) (attempt : LoadAttempt) :
    Except Unit (Nat × Nat) × GlmGlobals × Nat :=
  match s.model, s.processor with
  | some m, some p => (Except.ok (m, p), s, 0)
  | _, _ =>
    match attempt with
    | LoadAttempt.success pInst mInst =>
        (Except.ok (mInst, pInst), ⟨some mInst, some pInst⟩, 1)
    | LoadAttempt.failAtProcessor => (Except.error (), s, 1)
    | LoadAttempt.failAtModel pInst =>
        (Except.error (), ⟨s.model, some pInst⟩, 1)

/-- A sequence of sequential calls to `load_glm_model`: final globals, total
number of expensive loads performed, and the per-call results. -/
def runLoadCalls (s : GlmGlobals) : List LoadAttempt →
    GlmGlobals × Nat × List (Except Unit (Nat × Nat))
  | [] => (s, 0, [])
  | a :: as =>
    let r := load_glm_model s a
    let rest := runLoadCalls r.2.1 as
    (rest.1, r.2.2 + rest.2.1, r.1 :: rest.2.2)

theorem runLoadCalls_loaded (m p : Nat) (as : List LoadAttempt) :
    runLoadCalls ⟨some m, some p⟩ as =
      (⟨some m, some p⟩, 0, as.map fun _ => Except.ok (m, p)) := by
  induction as with
  | nil => rfl
  | cons a as ih => simp [runLoadCalls, load_glm_model, ih]

/-- Claim C9: `load_glm_model` performs the expensive load only when a
global is still unset; with both globals set it returns the cached
instances unchanged and performs no load; consequently once a load has
succeeded every further sequential call returns the same two instances with
zero additional loads, and a process whose first call succeeds performs
exactly one load over its whole lifetime. -/
theorem C9_model_loaded_once :
    (∀ s a, 1 ≤ (load_glm_model s a).2.2 →
      s.model = none ∨ s.processor = none) ∧
    (∀ m p a, load_glm_model ⟨some m, some p⟩ a =
      (Except.ok (m, p), ⟨some m, some p⟩, 0)) ∧
    (∀ m p as, runLoadCalls ⟨some m, some p⟩ as =
      (⟨some m, some p⟩, 0, as.map fun _ => Except.ok (m, p))) ∧
    (∀ pInst mInst as,
      runLoadCalls ⟨none, none⟩ (LoadAttempt.success pInst mInst :: as) =
        (⟨some mInst, some pInst⟩, 1,
         Except.ok (mInst, pInst) ::
           as.map fun _ => Except.ok (mInst, pInst))) := by
  refine ⟨?_, ?_, runLoadCalls_loaded, ?_⟩
  · intro s a h
    rcases s with ⟨mo, pr⟩
    cases mo with
    | none => exact Or.inl rfl
    | some m =>
      cases pr with
      | none => exact Or.inr rfl
      | some p =>
        simp [load_glm_model] at h
  · intro m p a
    rfl
  · intro pInst mInst as
    simp [runLoadCalls, load_glm_model, runLoadCalls_loaded]

/-- Witness for C9: from an unloaded state one failing attempt does perform
a load, and the hypothesis `1 ≤ loads` holds by computation. -/
theorem C9_model_loaded_once_witness :
    (⟨none, none⟩ : GlmGlobals).model = none ∨
    (⟨none, none⟩ : GlmGlobals).processor = none :=
  C9_model_loaded_once.1 ⟨none, none⟩ LoadAttempt.failAtProcessor (by decide)
